import Mathlib

/-!
Shallow embedding of the RAG chat pipeline:
`src/core/models/ollamaModel.ts`, `src/core/models/ragModel.ts`,
the retrieval chain (`buildPrompt`, second half of `src/core/rag/textSplitter.ts`),
and `addDocumentsToVectorStore` (vector-store module bundled into `src/app/page.tsx`).

External collaborators (the Ollama model, the Chroma vector store, the tool
implementations, `Date.now()`) are modelled as oracles passed in as parameters;
everything the repository's own code does with their answers is translated
faithfully from the TypeScript source.
-/

namespace Spec2Proof

/-! ### Data model (`ollamaModel.ts`, `ragModel.ts`) -/

/-- `ChatMessage.role`: the `"user" | "assistant"` union. -/
inductive Role
  | user
  | assistant
deriving DecidableEq, Repr

/-- `interface ChatMessage { role; content }`. -/
structure ChatMessage where
  role : Role
  content : String
deriving DecidableEq, Repr

/-- `interface StreamChunk { type: "content" | "thinking" | "error"; content?; error? }`,
as a tagged union: each recognized `type` with the payload field it carries. -/
inductive StreamChunk
  | content (s : String)
  | thinking (s : String)
  | error (e : String)
deriving DecidableEq, Repr

/-- `Record<string, any>` metadata, modelled as a finite key/value map. -/
def Metadata : Type := List (String × String)

instance : DecidableEq Metadata := by
  unfold Metadata
  infer_instance

/-- A retrieved document as used by prompt assembly:
`{ content: string; metadata: Record<string, any> }`. -/
structure RetrievedDoc where
  content : String
  metadata : Metadata
deriving DecidableEq

/-! ### Prompt assembly (`ragModel.ts` lines 26-48, retrieval chain lines 86-101)

Both `buildRAGPrompt` and the retrieval chain's `buildPrompt` compute
`retrievedDocs.map((doc, index) => `[文档 ${index + 1}]\n${doc.content}`).join("\n\n")`
and splice it into the same template; `buildRAGPrompt` additionally short-circuits
on an empty document list, `buildPrompt` does not. -/

/-- The shared `contextSections` computation. -/
def docSections (retrievedDocs : List RetrievedDoc) : String :=
  String.intercalate "\n\n"
    (retrievedDocs.enum.map fun p => "[文档 " ++ Nat.repr (p.1 + 1) ++ "]\n" ++ p.2.content)

/-- `buildRAGPrompt` from `ragModel.ts`: short-circuits to the raw query on an
empty document list, otherwise applies the fixed template. -/
def buildRAGPrompt (query : String) (retrievedDocs : List RetrievedDoc) : String :=
  if retrievedDocs.length = 0 then
    query
  else
    "基于以下检索到的文档内容回答用户的问题。如果文档中没有相关信息，请如实说明。\n\n检索到的文档内容：\n"
      ++ docSections retrievedDocs
      ++ "\n\n用户问题：" ++ query
      ++ "\n\n请基于上述文档内容回答问题，并引用相关的文档编号。"

/-- `buildPrompt` from the retrieval chain: the same template, with no
empty-document short-circuit. -/
def buildPrompt (query : String) (retrievedDocs : List RetrievedDoc) : String :=
  "基于以下检索到的文档内容回答用户的问题。如果文档中没有相关信息，请如实说明。\n\n检索到的文档内容：\n"
    ++ docSections retrievedDocs
    ++ "\n\n用户问题：" ++ query
    ++ "\n\n请基于上述文档内容回答问题，并引用相关的文档编号。"

/-! ### RAG gating (`ragModel.ts` lines 93-109) -/

/-- The resolved `ragOptions` fields that `shouldUseRAG` reads.  The
constructor resolves `enableRAG: options.enableRAG !== false` and
`ragThreshold: options.ragThreshold || 0`; a JS number may be negative, so the
threshold is an integer. -/
structure RAGSettings where
  enableRAG : Bool
  ragThreshold : Int
deriving DecidableEq, Repr

/-- `RAGModel.shouldUseRAG`: disabled ⇒ false; a positive threshold gates on
`message.length >= ragThreshold`; otherwise true. -/
def shouldUseRAG (o : RAGSettings) (message : String) : Bool :=
  if !o.enableRAG then
    false
  else if o.ragThreshold > 0 then
    decide ((message.length : Int) ≥ o.ragThreshold)
  else
    true

/-! ### Theorems for C2, C4, C5 -/

/-- C2: For every configured threshold T and every message M, `shouldUseRAG M`
is true iff RAG is enabled and (T = 0 or `M.length ≥ T`). -/
theorem c2_shouldUseRAG_iff (o : RAGSettings) (M : String) :
    shouldUseRAG o M = true ↔
      o.enableRAG = true ∧ (o.ragThreshold = 0 ∨ (M.length : Int) ≥ o.ragThreshold) := by
  unfold shouldUseRAG
  rcases o with ⟨enable, T⟩
  cases enable <;> simp <;> omega

/-- C4 counterexample: with query `"X"` and one retrieved document, the built
prompt does not end with the query (it ends with the fixed instruction suffix). -/
theorem c4_counterexample :
    ¬ ∃ p : String, buildRAGPrompt "X" [⟨"Y", ([] : List (String × String))⟩] = p ++ "X" := by
  rintro ⟨p, hp⟩
  have h := congrArg (fun s => s.data.getLast?) hp
  simp only [String.data_append] at h
  rw [List.getLast?_concat] at h
  exact absurd h (by decide)

/-- C4 (amended): for every query Q and non-empty document list D, the prompt is
exactly the fixed header, then the labelled sections — one per document, in
input order, each `[文档 (i+1)]` followed by that document's content, joined by
a blank line — then `用户问题：` Q, then the fixed instruction suffix (so the
prompt contains each document's section in order but ends with the suffix, not
with Q); the same shape holds for the retrieval chain's `buildPrompt`. -/
theorem c4_prompt_structure (Q : String) (D : List RetrievedDoc) (hD : D ≠ []) :
    buildRAGPrompt Q D =
      "基于以下检索到的文档内容回答用户的问题。如果文档中没有相关信息，请如实说明。\n\n检索到的文档内容：\n"
        ++ String.intercalate "\n\n"
            (D.enum.map fun p => "[文档 " ++ Nat.repr (p.1 + 1) ++ "]\n" ++ p.2.content)
        ++ "\n\n用户问题：" ++ Q
        ++ "\n\n请基于上述文档内容回答问题，并引用相关的文档编号。"
    ∧ buildRAGPrompt Q D = buildPrompt Q D
    ∧ (D.enum.map fun p => "[文档 " ++ Nat.repr (p.1 + 1) ++ "]\n" ++ p.2.content).length
        = D.length
    ∧ ∀ i (h : i < D.length),
        (D.enum.map fun p => "[文档 " ++ Nat.repr (p.1 + 1) ++ "]\n" ++ p.2.content).get
            ⟨i, by simpa using h⟩
          = "[文档 " ++ Nat.repr (i + 1) ++ "]\n" ++ (D.get ⟨i, h⟩).content := by
  have hlen : D.length ≠ 0 := by simpa using hD
  refine ⟨?_, ?_, by simp, ?_⟩
  · unfold buildRAGPrompt docSections
    simp [hlen]
  · unfold buildRAGPrompt buildPrompt docSections
    simp [hlen]
  · intro i h
    simp [List.get_enum]

/-- Witness for C4's amended theorem at a concrete query and document list. -/
theorem c4_prompt_structure_witness :
    buildRAGPrompt "Q" [⟨"A", []⟩, ⟨"B", []⟩] =
      "基于以下检索到的文档内容回答用户的问题。如果文档中没有相关信息，请如实说明。\n\n检索到的文档内容：\n"
        ++ String.intercalate "\n\n"
            (([⟨"A", []⟩, ⟨"B", []⟩] : List RetrievedDoc).enum.map
              fun p => "[文档 " ++ Nat.repr (p.1 + 1) ++ "]\n" ++ p.2.content)
        ++ "\n\n用户问题：" ++ "Q"
        ++ "\n\n请基于上述文档内容回答问题，并引用相关的文档编号。" :=
  (c4_prompt_structure "Q" [⟨"A", []⟩, ⟨"B", []⟩] (by simp)).1

/-- C5 counterexample: the retrieval chain's `buildPrompt` applied to an empty
document list does not return the query unchanged. -/
theorem c5_counterexample : buildPrompt "X" [] ≠ "X" := by
  decide

/-- C5 (amended): `buildRAGPrompt Q [] = Q` (the decorator's bypass holds), but
the retrieval chain's `buildPrompt Q []` applies the full template with an
empty context section instead of returning Q. -/
theorem c5_empty_docs (Q : String) :
    buildRAGPrompt Q [] = Q
    ∧ buildPrompt Q [] =
        "基于以下检索到的文档内容回答用户的问题。如果文档中没有相关信息，请如实说明。\n\n检索到的文档内容：\n"
          ++ "\n\n用户问题：" ++ Q
          ++ "\n\n请基于上述文档内容回答问题，并引用相关的文档编号。" := by
  exact ⟨rfl, rfl⟩

/-! ### SSE / JSON encoding (`ollamaModel.ts` createStreamingResponse)

Each enqueued frame is `encoder.encode("data: " ++ JSON.stringify(chunk) ++ "\n\n")`;
the terminal sentinel is `data: [DONE]\n\n`.  `JSON.stringify` escaping of string
values is modelled faithfully (quote, backslash, and control characters). -/

/-- One hexadecimal digit (lower case), as produced by `JSON.stringify`'s
`\uXXXX` escapes. -/
def hexDigitChar (n : Nat) : Char :=
  if n < 10 then Char.ofNat ('0'.toNat + n) else Char.ofNat ('a'.toNat + (n - 10))

/-- Four-hex-digit rendering of a code point below 0x20. -/
def hex4 (n : Nat) : String :=
  String.mk [hexDigitChar (n / 4096 % 16), hexDigitChar (n / 256 % 16),
    hexDigitChar (n / 16 % 16), hexDigitChar (n % 16)]

/-- `JSON.stringify` escaping of a single character inside a string value. -/
def jsonEscapeChar (c : Char) : String :=
  if c = '"' then "\\\""
  else if c = '\\' then "\\\\"
  else if c = '\x08' then "\\b"
  else if c = '\x09' then "\\t"
  else if c = '\x0a' then "\\n"
  else if c = '\x0c' then "\\f"
  else if c = '\x0d' then "\\r"
  else if c.toNat < 0x20 then "\\u" ++ hex4 c.toNat
  else String.singleton c

/-- `JSON.stringify` of a string value. -/
def jsonString (s : String) : String :=
  "\"" ++ String.join (s.data.map jsonEscapeChar) ++ "\""

/-- `JSON.stringify` of each `StreamChunk` shape the route emits:
`{type:"content",content}`, `{type:"thinking",content}`, `{type:"error",error}`. -/
def encodeChunk : StreamChunk → String
  | .content s => "\x7b\"type\":\"content\",\"content\":" ++ jsonString s ++ "\x7d"
  | .thinking s => "\x7b\"type\":\"thinking\",\"content\":" ++ jsonString s ++ "\x7d"
  | .error e => "\x7b\"type\":\"error\",\"error\":" ++ jsonString e ++ "\x7d"

/-- A frame of the HTTP byte stream: either a JSON chunk or the `[DONE]` sentinel. -/
inductive SSEFrame
  | chunk (c : StreamChunk)
  | done
deriving DecidableEq, Repr

/-- `data: <payload>\n\n`. -/
def sseData (payload : String) : String := "data: " ++ payload ++ "\n\n"

/-- The bytes written for one frame. -/
def encodeFrame : SSEFrame → String
  | .chunk c => sseData (encodeChunk c)
  | .done => sseData "[DONE]"

/-! ### The model's token stream (oracle side)

`chunk.content` may be a non-string (structured content): `none` models that
case, `some s` a string.  `reasoning_content` / `thinking` are the optional
extra fields probed by the code; JS truthiness makes `""` falsy. -/

/-- One fragment of the underlying token stream. -/
structure Fragment where
  content : Option String
  reasoning_content : Option String
  thinking : Option String
deriving DecidableEq, Repr

/-- JS truthiness of an optional string field (`undefined` and `""` are falsy). -/
def truthy : Option String → Option String
  | none => none
  | some s => if s = "" then none else some s

/-- JS `a || b` on optional string fields. -/
def jsOr (a b : Option String) : Option String :=
  match truthy a with
  | some s => some s
  | none => truthy b

/-- The chunks emitted for one fragment by `streamChat` and by the no-tool
branch of `createStreamingResponse`: skip unless `content` is a non-empty
string; emit `content`; then, if `reasoning_content || thinking` is truthy,
emit a `thinking` chunk with it. -/
def fragmentChunks (f : Fragment) : List StreamChunk :=
  match f.content with
  | some c =>
    if c ≠ "" then
      StreamChunk.content c ::
        (match jsOr f.reasoning_content f.thinking with
         | some t => [StreamChunk.thinking t]
         | none => [])
    else []
  | none => []

/-- The chunks emitted for one fragment by the post-tool-call streaming pass:
only `content`, never `thinking`. -/
def toolPassChunks (f : Fragment) : List StreamChunk :=
  match f.content with
  | some c => if c ≠ "" then [StreamChunk.content c] else []
  | none => []

/-! ### Tool calls (`ollamaModel.ts` lines 122-150 and 164-194) -/

/-- A model-issued tool call: `{name, args, id}` (`args` kept opaque). -/
structure ToolCall where
  name : String
  args : String
  id : String
deriving DecidableEq, Repr

/-- The non-streaming `model.invoke` response: message content plus the
`tool_calls` array (empty models a missing/empty array). -/
structure ModelResponse where
  content : String
  tool_calls : List ToolCall
deriving DecidableEq, Repr

/-- A tool from the static registry: `invoke` returns a result string or throws. -/
structure ToolImpl where
  invoke : String → Except String String

/-- `new ToolMessage({content, tool_call_id})`. -/
structure ToolMsg where
  content : String
  tool_call_id : String
deriving DecidableEq, Repr

/-- `executeToolCalls`: look each call up in the static name→tool map; unknown
names are skipped; a thrown tool error becomes a `"Error: …"` result. -/
def executeToolCalls (toolMap : String → Option ToolImpl) : List ToolCall → List ToolMsg
  | [] => []
  | toolCall :: rest =>
    match toolMap toolCall.name with
    | some tool =>
      (match tool.invoke toolCall.args with
       | .ok result => ToolMsg.mk result toolCall.id
       | .error e => ToolMsg.mk ("Error: " ++ e) toolCall.id)
        :: executeToolCalls toolMap rest
    | none => executeToolCalls toolMap rest

/-! ### LangChain-format history and the model oracle -/

/-- A LangChain message: the system prompt, converted history turns, the
assistant response object appended in the tool branch, and tool results. -/
inductive LCMessage
  | system (s : String)
  | human (s : String)
  | ai (s : String)
  | aiResponse (r : ModelResponse)
  | tool (content : String) (tool_call_id : String)
deriving DecidableEq, Repr

/-- `new ToolMessage({content, tool_call_id})` pushed onto the history. -/
def ToolMsg.toLC (tm : ToolMsg) : LCMessage := LCMessage.tool tm.content tm.tool_call_id

/-- What one `model.stream` call delivers: the fragments iterated before the
stream either ends normally (`err = none`) or throws (`err = some e`). -/
structure StreamOutcome where
  fragments : List Fragment
  err : Option String
deriving Repr

/-- The underlying chat model as an oracle: what `model.invoke` returns (or
throws) and what `model.stream` delivers (fragments, then optionally a thrown
error) for a given history. -/
structure ModelOracle where
  invoke : List LCMessage → Except String ModelResponse
  stream : List LCMessage → StreamOutcome

namespace OllamaModel

/-- `OllamaModel.convertToLangChainMessages`: the system prompt first, then
each turn mapped `user → HumanMessage`, `assistant → AIMessage`, in order. -/
def convertToLangChainMessages (systemPrompt : String) (messages : List ChatMessage) :
    List LCMessage :=
  LCMessage.system systemPrompt ::
    messages.map fun msg =>
      match msg.role with
      | .user => LCMessage.human msg.content
      | .assistant => LCMessage.ai msg.content

/-- `OllamaModel.streamChat`: emit the per-fragment chunks; a thrown error
yields exactly one `error` chunk and a quiet return. -/
def streamChat (oracle : ModelOracle) (systemPrompt : String)
    (messages : List ChatMessage) : List StreamChunk :=
  ((oracle.stream (convertToLangChainMessages systemPrompt messages)).fragments.flatMap
      fragmentChunks) ++
    (match (oracle.stream (convertToLangChainMessages systemPrompt messages)).err with
     | some e => [StreamChunk.error e]
     | none => [])

/-- The frames a streaming loop enqueues: the per-fragment chunks, then either
the `[DONE]` sentinel (normal end) or a single `error` chunk (thrown error);
the stream is closed right after in both cases. -/
def streamOutcomeFrames (chunksOf : Fragment → List StreamChunk) (out : StreamOutcome) :
    List SSEFrame :=
  ((out.fragments.flatMap chunksOf).map SSEFrame.chunk) ++
    (match out.err with
     | some e => [SSEFrame.chunk (StreamChunk.error e)]
     | none => [SSEFrame.done])

/-- The history used for the second (post-tool-call) model invocation:
`[...langchainMessages, response, ...toolMessages]`. -/
def toolExtendedHistory (toolMap : String → Option ToolImpl)
    (langchainMessages : List LCMessage) (response : ModelResponse) : List LCMessage :=
  langchainMessages ++
    LCMessage.aiResponse response ::
      (executeToolCalls toolMap response.tool_calls).map ToolMsg.toLC

/-- `OllamaModel.createStreamingResponse`: invoke once; if the response carries
tool calls, execute them, extend the history, and stream forwarding only
`content`; otherwise stream the original history forwarding `content` and
`thinking`; append `data: [DONE]` and close, or on a thrown error enqueue one
`error` chunk and close. -/
def createStreamingResponse (oracle : ModelOracle) (toolMap : String → Option ToolImpl)
    (systemPrompt : String) (messages : List ChatMessage) : List SSEFrame :=
  match oracle.invoke (convertToLangChainMessages systemPrompt messages) with
  | .error e => [SSEFrame.chunk (StreamChunk.error e)]
  | .ok response =>
    if 0 < response.tool_calls.length then
      streamOutcomeFrames toolPassChunks
        (oracle.stream
          (toolExtendedHistory toolMap (convertToLangChainMessages systemPrompt messages)
            response))
    else
      streamOutcomeFrames fragmentChunks
        (oracle.stream (convertToLangChainMessages systemPrompt messages))

/-- The byte stream produced by `createStreamingResponse`. -/
def sseBody (oracle : ModelOracle) (toolMap : String → Option ToolImpl)
    (systemPrompt : String) (messages : List ChatMessage) : String :=
  String.join ((createStreamingResponse oracle toolMap systemPrompt messages).map encodeFrame)

/-- Whether (and with what message) an error is thrown during
`createStreamingResponse`: by `model.invoke`, or by whichever `model.stream`
call the taken branch consumes. -/
def errorOf (oracle : ModelOracle) (toolMap : String → Option ToolImpl)
    (systemPrompt : String) (messages : List ChatMessage) : Option String :=
  match oracle.invoke (convertToLangChainMessages systemPrompt messages) with
  | .error e => some e
  | .ok response =>
    if 0 < response.tool_calls.length then
      (oracle.stream
        (toolExtendedHistory toolMap (convertToLangChainMessages systemPrompt messages)
          response)).err
    else
      (oracle.stream (convertToLangChainMessages systemPrompt messages)).err

end OllamaModel

/-! ### Chunk classification helpers and facts about per-fragment output -/

/-- Whether a chunk is an `error` chunk. -/
def isErrorChunk : StreamChunk → Bool
  | .error _ => true
  | _ => false

/-- Whether a frame carries an `error` chunk. -/
def isErrorFrame : SSEFrame → Bool
  | .chunk (.error _) => true
  | _ => false

lemma fragmentChunks_shape (f : Fragment) :
    fragmentChunks f = [] ∨ (∃ c, fragmentChunks f = [StreamChunk.content c]) ∨
      ∃ c t, fragmentChunks f = [StreamChunk.content c, StreamChunk.thinking t] := by
  rcases f with ⟨co, rc, th⟩
  cases co with
  | none => exact Or.inl rfl
  | some c =>
    by_cases hc : c = ""
    · exact Or.inl (by simp [fragmentChunks, hc])
    · cases h : jsOr rc th with
      | none => exact Or.inr (Or.inl ⟨c, by simp [fragmentChunks, hc, h]⟩)
      | some t => exact Or.inr (Or.inr ⟨c, t, by simp [fragmentChunks, hc, h]⟩)

lemma toolPassChunks_shape (f : Fragment) :
    toolPassChunks f = [] ∨ ∃ c, toolPassChunks f = [StreamChunk.content c] := by
  rcases f with ⟨co, rc, th⟩
  cases co with
  | none => exact Or.inl rfl
  | some c =>
    by_cases hc : c = ""
    · exact Or.inl (by simp [toolPassChunks, hc])
    · exact Or.inr ⟨c, by simp [toolPassChunks, hc]⟩

lemma fragmentChunks_mem {f : Fragment} {c : StreamChunk} (h : c ∈ fragmentChunks f) :
    (∃ s, c = StreamChunk.content s) ∨ ∃ t, c = StreamChunk.thinking t := by
  rcases fragmentChunks_shape f with hs | ⟨s, hs⟩ | ⟨s, t, hs⟩ <;> rw [hs] at h
  · exact absurd h (List.not_mem_nil c)
  · rw [List.mem_singleton] at h
    exact Or.inl ⟨s, h⟩
  · rcases List.mem_cons.1 h with h1 | h1
    · exact Or.inl ⟨s, h1⟩
    · rw [List.mem_singleton] at h1
      exact Or.inr ⟨t, h1⟩

lemma toolPassChunks_mem {f : Fragment} {c : StreamChunk} (h : c ∈ toolPassChunks f) :
    ∃ s, c = StreamChunk.content s := by
  rcases toolPassChunks_shape f with hs | ⟨s, hs⟩ <;> rw [hs] at h
  · exact absurd h (List.not_mem_nil c)
  · rw [List.mem_singleton] at h
    exact ⟨s, h⟩

lemma flatMap_fragmentChunks_not_error {fs : List Fragment} :
    ∀ c ∈ fs.flatMap fragmentChunks, isErrorChunk c = false := by
  intro c hc
  rcases List.mem_flatMap.1 hc with ⟨f, _, hcf⟩
  rcases fragmentChunks_mem hcf with ⟨s, rfl⟩ | ⟨t, rfl⟩ <;> rfl

lemma flatMap_toolPassChunks_not_error {fs : List Fragment} :
    ∀ c ∈ fs.flatMap toolPassChunks, isErrorChunk c = false := by
  intro c hc
  rcases List.mem_flatMap.1 hc with ⟨f, _, hcf⟩
  rcases toolPassChunks_mem hcf with ⟨s, rfl⟩
  rfl

/-! ### C1: streaming response framing -/

/-- C1: the byte stream of `createStreamingResponse` is a sequence of
`data: <JSON>\n\n` frames, each a recognized chunk; when no error is thrown the
non-error chunk frames are followed by the literal `data: [DONE]\n\n` sentinel
and closure; when an error is thrown the stream ends with exactly one `error`
chunk, closes immediately, and the sentinel is never sent. -/
theorem c1_streaming_framing (oracle : ModelOracle) (toolMap : String → Option ToolImpl)
    (systemPrompt : String) (messages : List ChatMessage) :
    ∃ cs : List StreamChunk,
      (∀ c ∈ cs, isErrorChunk c = false)
      ∧ OllamaModel.createStreamingResponse oracle toolMap systemPrompt messages =
          cs.map SSEFrame.chunk ++
            (match OllamaModel.errorOf oracle toolMap systemPrompt messages with
             | none => [SSEFrame.done]
             | some e => [SSEFrame.chunk (StreamChunk.error e)])
      ∧ (SSEFrame.done ∈ OllamaModel.createStreamingResponse oracle toolMap systemPrompt messages
          ↔ OllamaModel.errorOf oracle toolMap systemPrompt messages = none)
      ∧ (OllamaModel.createStreamingResponse oracle toolMap systemPrompt messages).countP
            (fun fr => isErrorFrame fr)
          = (match OllamaModel.errorOf oracle toolMap systemPrompt messages with
             | none => 0
             | some _ => 1)
      ∧ OllamaModel.sseBody oracle toolMap systemPrompt messages =
          String.join
            ((OllamaModel.createStreamingResponse oracle toolMap systemPrompt messages).map
              encodeFrame) := by
  have key : ∃ cs : List StreamChunk,
      (∀ c ∈ cs, isErrorChunk c = false)
      ∧ OllamaModel.createStreamingResponse oracle toolMap systemPrompt messages =
          cs.map SSEFrame.chunk ++
            (match OllamaModel.errorOf oracle toolMap systemPrompt messages with
             | none => [SSEFrame.done]
             | some e => [SSEFrame.chunk (StreamChunk.error e)]) := by
    unfold OllamaModel.createStreamingResponse OllamaModel.errorOf
    cases hin :
        oracle.invoke (OllamaModel.convertToLangChainMessages systemPrompt messages) with
    | error e => exact ⟨[], by simp, by simp⟩
    | ok response =>
      by_cases htc : 0 < response.tool_calls.length
      · refine ⟨(oracle.stream
            (OllamaModel.toolExtendedHistory toolMap
              (OllamaModel.convertToLangChainMessages systemPrompt messages)
              response)).fragments.flatMap toolPassChunks,
          flatMap_toolPassChunks_not_error, ?_⟩
        unfold OllamaModel.streamOutcomeFrames
        cases herr : (oracle.stream
            (OllamaModel.toolExtendedHistory toolMap
              (OllamaModel.convertToLangChainMessages systemPrompt messages)
              response)).err <;> simp [htc, herr]
      · refine ⟨(oracle.stream
            (OllamaModel.convertToLangChainMessages systemPrompt messages)).fragments.flatMap
              fragmentChunks,
          flatMap_fragmentChunks_not_error, ?_⟩
        unfold OllamaModel.streamOutcomeFrames
        cases herr : (oracle.stream
            (OllamaModel.convertToLangChainMessages systemPrompt messages)).err <;>
          simp [htc, herr]
  obtain ⟨cs, hcs, heq⟩ := key
  refine ⟨cs, hcs, heq, ?_, ?_, rfl⟩
  · rw [heq]
    cases herr : OllamaModel.errorOf oracle toolMap systemPrompt messages <;> simp
  · rw [heq, List.countP_append, List.countP_map]
    have hzero : cs.countP ((fun fr => isErrorFrame fr) ∘ SSEFrame.chunk) = 0 := by
      rw [List.countP_eq_zero]
      intro c hc
      have := hcs c hc
      cases c <;> simp_all [isErrorChunk, isErrorFrame]
    rw [hzero]
    cases herr : OllamaModel.errorOf oracle toolMap systemPrompt messages <;>
      simp [isErrorFrame, List.countP_cons]

/-! ### C6: tool round trip -/

lemma executeToolCalls_ids (toolMap : String → Option ToolImpl) :
    ∀ tcs : List ToolCall, (∀ tc ∈ tcs, (toolMap tc.name).isSome) →
      (executeToolCalls toolMap tcs).map ToolMsg.tool_call_id = tcs.map ToolCall.id := by
  intro tcs
  induction tcs with
  | nil => intro _; rfl
  | cons tc rest ih =>
    intro h
    obtain ⟨tool, htool⟩ := Option.isSome_iff_exists.1 (h tc (List.mem_cons_self tc rest))
    have hrest := ih fun x hx => h x (List.mem_cons_of_mem _ hx)
    unfold executeToolCalls
    rw [htool]
    cases hinv : tool.invoke tc.args <;> simp [hrest, hinv]

/-- C6: when the first model response declares tool calls that all resolve in
the static registry, exactly one tool-result entry per call is produced, in
request order (matching `tool_call_id`s), and the second streaming invocation
runs over the history extended by the assistant response followed by those
entries; an unresolvable name is skipped without erroring the turn; an error
thrown inside a tool becomes an `Error: …` textual result. -/
theorem c6_tool_round_trip :
    (∀ (oracle : ModelOracle) (toolMap : String → Option ToolImpl) (systemPrompt : String)
        (messages : List ChatMessage) (response : ModelResponse),
      oracle.invoke (OllamaModel.convertToLangChainMessages systemPrompt messages)
          = Except.ok response →
      response.tool_calls ≠ [] →
      (∀ tc ∈ response.tool_calls, (toolMap tc.name).isSome) →
        (executeToolCalls toolMap response.tool_calls).length = response.tool_calls.length
        ∧ (executeToolCalls toolMap response.tool_calls).map ToolMsg.tool_call_id
            = response.tool_calls.map ToolCall.id
        ∧ OllamaModel.createStreamingResponse oracle toolMap systemPrompt messages
            = OllamaModel.streamOutcomeFrames toolPassChunks
                (oracle.stream
                  (OllamaModel.convertToLangChainMessages systemPrompt messages ++
                    LCMessage.aiResponse response ::
                      (executeToolCalls toolMap response.tool_calls).map ToolMsg.toLC)))
    ∧ (∀ (toolMap : String → Option ToolImpl) (tcs₁ : List ToolCall) (tc : ToolCall)
        (tcs₂ : List ToolCall), toolMap tc.name = none →
        executeToolCalls toolMap (tcs₁ ++ tc :: tcs₂) = executeToolCalls toolMap (tcs₁ ++ tcs₂))
    ∧ ∀ (toolMap : String → Option ToolImpl) (tc : ToolCall) (tool : ToolImpl) (e : String),
        toolMap tc.name = some tool → tool.invoke tc.args = Except.error e →
        executeToolCalls toolMap [tc] = [ToolMsg.mk ("Error: " ++ e) tc.id] := by
  refine ⟨?_, ?_, ?_⟩
  · intro oracle toolMap systemPrompt messages response hin hne hres
    have hids := executeToolCalls_ids toolMap response.tool_calls hres
    refine ⟨?_, hids, ?_⟩
    · have := congrArg List.length hids
      simpa using this
    · unfold OllamaModel.createStreamingResponse
      rw [hin]
      dsimp only
      rw [if_pos (List.length_pos.2 hne)]
      rfl
  · intro toolMap tcs₁ tc tcs₂ hnone
    induction tcs₁ with
    | nil => simp [executeToolCalls, hnone]
    | cons x rest ih =>
      simp only [List.cons_append]
      unfold executeToolCalls
      cases hx : toolMap x.name with
      | none => exact ih
      | some tool => rw [ih]
  · intro toolMap tc tool e h1 h2
    simp [executeToolCalls, h1, h2]

/-- Witness for C6 at a concrete registry and response: the single resolvable
call `call-1` yields the single tool-result id `call-1`. -/
theorem c6_tool_round_trip_witness :
    (executeToolCalls
        (fun n => if n = "get_weather" then some ⟨fun _ => Except.ok "sunny"⟩ else none)
        [ToolCall.mk "get_weather" "" "call-1"]).map ToolMsg.tool_call_id
      = ["call-1"] :=
  (c6_tool_round_trip.1
    (ModelOracle.mk
      (fun _ => Except.ok (ModelResponse.mk "" [ToolCall.mk "get_weather" "" "call-1"]))
      (fun _ => StreamOutcome.mk [] none))
    (fun n => if n = "get_weather" then some ⟨fun _ => Except.ok "sunny"⟩ else none)
    "sp" [] (ModelResponse.mk "" [ToolCall.mk "get_weather" "" "call-1"])
    rfl (by simp)
    (by
      intro tc htc
      rw [List.mem_singleton] at htc
      subst htc
      simp)).2.1

/-! ### C7: the post-tool-call pass drops `thinking` chunks -/

/-- C7: in the post-tool-call streaming pass no `thinking` chunk is ever
enqueued, even when a fragment carries a reasoning/thinking field; by contrast
the no-tool per-fragment handler forwards both `content` and `thinking` for
the very same fragment. -/
theorem c7_tool_pass_drops_thinking :
    (∀ (oracle : ModelOracle) (toolMap : String → Option ToolImpl) (systemPrompt : String)
        (messages : List ChatMessage) (response : ModelResponse),
      oracle.invoke (OllamaModel.convertToLangChainMessages systemPrompt messages)
          = Except.ok response →
      response.tool_calls ≠ [] →
      ∀ t : String,
        SSEFrame.chunk (StreamChunk.thinking t)
          ∉ OllamaModel.createStreamingResponse oracle toolMap systemPrompt messages)
    ∧ fragmentChunks (Fragment.mk (some "x") none (some "t"))
        = [StreamChunk.content "x", StreamChunk.thinking "t"]
    ∧ toolPassChunks (Fragment.mk (some "x") none (some "t")) = [StreamChunk.content "x"] := by
  refine ⟨?_, by decide, by decide⟩
  intro oracle toolMap systemPrompt messages response hin hne t hmem
  unfold OllamaModel.createStreamingResponse at hmem
  rw [hin] at hmem
  dsimp only at hmem
  rw [if_pos (List.length_pos.2 hne)] at hmem
  unfold OllamaModel.streamOutcomeFrames at hmem
  rcases List.mem_append.1 hmem with hmem | hmem
  · obtain ⟨c, hc, hchunk⟩ := List.mem_map.1 hmem
    obtain ⟨s, rfl⟩ := toolPassChunks_mem (List.mem_flatMap.1 hc).choose_spec.2
    exact absurd hchunk (by simp [(List.mem_flatMap.1 hc).choose_spec.2])
  · revert hmem
    cases (oracle.stream
        (OllamaModel.toolExtendedHistory toolMap
          (OllamaModel.convertToLangChainMessages systemPrompt messages)
          response)).err <;> simp

/-- Witness for C7 at a concrete oracle whose post-tool stream delivers a
fragment that carries a thinking field: no thinking frame is emitted. -/
theorem c7_tool_pass_drops_thinking_witness :
    SSEFrame.chunk (StreamChunk.thinking "t")
      ∉ OllamaModel.createStreamingResponse
          (ModelOracle.mk
            (fun _ => Except.ok (ModelResponse.mk "" [ToolCall.mk "get_weather" "" "call-1"]))
            (fun _ => StreamOutcome.mk [Fragment.mk (some "x") none (some "t")] none))
          (fun _ => none) "sp" [] :=
  c7_tool_pass_drops_thinking.1
    (ModelOracle.mk
      (fun _ => Except.ok (ModelResponse.mk "" [ToolCall.mk "get_weather" "" "call-1"]))
      (fun _ => StreamOutcome.mk [Fragment.mk (some "x") none (some "t")] none))
    (fun _ => none) "sp" [] (ModelResponse.mk "" [ToolCall.mk "get_weather" "" "call-1"])
    rfl (by simp) "t"

/-! ### C10: a `thinking` chunk always directly follows a `content` chunk -/

lemma flatMap_fragmentChunks_thinking :
    ∀ (fs : List Fragment) (i : Nat) (t : String),
      (fs.flatMap fragmentChunks).get? i = some (StreamChunk.thinking t) →
      ∃ c j, i = j + 1 ∧
        (fs.flatMap fragmentChunks).get? j = some (StreamChunk.content c) := by
  intro fs
  induction fs with
  | nil =>
    intro i t h
    simp at h
  | cons f fs ih =>
    intro i t h
    rw [List.flatMap_cons] at h ⊢
    rcases fragmentChunks_shape f with hs | ⟨s, hs⟩ | ⟨s, u, hs⟩ <;> rw [hs] at h ⊢
    · rw [List.nil_append] at h ⊢
      exact ih i t h
    · rw [List.singleton_append] at h ⊢
      cases i with
      | zero => simp at h
      | succ k =>
        rw [List.get?_cons_succ] at h
        obtain ⟨c, j, rfl, hj⟩ := ih k t h
        exact ⟨c, j + 1, rfl, by simpa using hj⟩
    · rw [List.cons_append, List.singleton_append] at h ⊢
      cases i with
      | zero => simp at h
      | succ k =>
        cases k with
        | zero => exact ⟨s, 0, rfl, rfl⟩
        | succ m =>
          rw [List.get?_cons_succ, List.get?_cons_succ] at h
          obtain ⟨c, j, rfl, hj⟩ := ih m t h
          exact ⟨c, j + 2, rfl, by simpa using hj⟩

lemma thinking_position_append {cs tail : List StreamChunk}
    (hcs : ∀ i t, cs.get? i = some (StreamChunk.thinking t) →
      ∃ c j, i = j + 1 ∧ cs.get? j = some (StreamChunk.content c))
    (htail : ∀ x ∈ tail, ∀ t, x ≠ StreamChunk.thinking t) :
    ∀ i t, (cs ++ tail).get? i = some (StreamChunk.thinking t) →
      ∃ c j, i = j + 1 ∧ (cs ++ tail).get? j = some (StreamChunk.content c) := by
  intro i t h
  by_cases hi : i < cs.length
  · rw [List.get?_append hi] at h
    obtain ⟨c, j, rfl, hj⟩ := hcs i t h
    have hj' : j < cs.length := by omega
    exact ⟨c, j, rfl, by rw [List.get?_append hj']; exact hj⟩
  · exfalso
    rw [List.get?_append_right (le_of_not_lt hi)] at h
    exact htail _ (List.get?_mem h) t rfl

lemma thinking_position_frames {cs : List StreamChunk} {tail : List SSEFrame}
    (hcs : ∀ i t, cs.get? i = some (StreamChunk.thinking t) →
      ∃ c j, i = j + 1 ∧ cs.get? j = some (StreamChunk.content c))
    (htail : ∀ x ∈ tail, ∀ t, x ≠ SSEFrame.chunk (StreamChunk.thinking t)) :
    ∀ i t, ((cs.map SSEFrame.chunk) ++ tail).get? i
        = some (SSEFrame.chunk (StreamChunk.thinking t)) →
      ∃ c j, i = j + 1 ∧ ((cs.map SSEFrame.chunk) ++ tail).get? j
        = some (SSEFrame.chunk (StreamChunk.content c)) := by
  intro i t h
  by_cases hi : i < (cs.map SSEFrame.chunk).length
  · rw [List.get?_append hi] at h
    rw [List.get?_map] at h
    have hcs_i : cs.get? i = some (StreamChunk.thinking t) := by
      cases hg : cs.get? i with
      | none => rw [hg] at h; simp at h
      | some x =>
        rw [hg] at h
        simp only [Option.map_some'] at h
        cases h
        rfl
    obtain ⟨c, j, rfl, hj⟩ := hcs i t hcs_i
    have hj' : j < (cs.map SSEFrame.chunk).length := by
      rw [List.length_map] at hi ⊢
      omega
    refine ⟨c, j, rfl, ?_⟩
    rw [List.get?_append hj', List.get?_map, hj]
    rfl
  · exfalso
    rw [List.get?_append_right (le_of_not_lt hi)] at h
    exact htail _ (List.get?_mem h) t rfl

/-- C10: in `streamChat` and in the no-tool branch of
`createStreamingResponse`, a fragment whose content is empty or not a string
produces no output at all (even with a reasoning/thinking field), and every
emitted `thinking` chunk sits immediately after a `content` chunk. -/
theorem c10_thinking_after_content :
    (∀ f : Fragment, (f.content = none ∨ f.content = some "") → fragmentChunks f = [])
    ∧ (∀ (oracle : ModelOracle) (systemPrompt : String) (messages : List ChatMessage)
        (i : Nat) (t : String),
        (OllamaModel.streamChat oracle systemPrompt messages).get? i
            = some (StreamChunk.thinking t) →
        ∃ c j, i = j + 1 ∧
          (OllamaModel.streamChat oracle systemPrompt messages).get? j
            = some (StreamChunk.content c))
    ∧ ∀ (oracle : ModelOracle) (toolMap : String → Option ToolImpl) (systemPrompt : String)
        (messages : List ChatMessage) (response : ModelResponse),
        oracle.invoke (OllamaModel.convertToLangChainMessages systemPrompt messages)
            = Except.ok response →
        response.tool_calls = [] →
        ∀ (i : Nat) (t : String),
          (OllamaModel.createStreamingResponse oracle toolMap systemPrompt messages).get? i
              = some (SSEFrame.chunk (StreamChunk.thinking t)) →
          ∃ c j, i = j + 1 ∧
            (OllamaModel.createStreamingResponse oracle toolMap systemPrompt messages).get? j
              = some (SSEFrame.chunk (StreamChunk.content c)) := by
  refine ⟨?_, ?_, ?_⟩
  · intro f hf
    rcases f with ⟨co, rc, th⟩
    rcases hf with hf | hf <;> simp only at hf <;> subst hf <;> simp [fragmentChunks]
  · intro oracle systemPrompt messages
    unfold OllamaModel.streamChat
    apply thinking_position_append
    · exact flatMap_fragmentChunks_thinking _
    · intro x hx t
      revert hx
      cases (oracle.stream (OllamaModel.convertToLangChainMessages systemPrompt messages)).err
        <;> simp
      intro hx
      subst hx
      simp
  · intro oracle toolMap systemPrompt messages response hin hz
    unfold OllamaModel.createStreamingResponse
    rw [hin]
    dsimp only
    rw [if_neg (by simp [hz])]
    unfold OllamaModel.streamOutcomeFrames
    apply thinking_position_frames
    · exact flatMap_fragmentChunks_thinking _
    · intro x hx t
      revert hx
      cases (oracle.stream (OllamaModel.convertToLangChainMessages systemPrompt messages)).err
        <;> simp
        <;> rintro rfl
        <;> simp

/-- Witness for C10: a concrete stream delivering one fragment with content
`"x"` and thinking `"t"` emits `[content "x", thinking "t"]`, and the thinking
chunk at index 1 is preceded by the content chunk at index 0. -/
theorem c10_thinking_after_content_witness :
    ∃ c j, 1 = j + 1 ∧
      (OllamaModel.streamChat
        (ModelOracle.mk (fun _ => Except.error "unused")
          (fun _ => StreamOutcome.mk [Fragment.mk (some "x") none (some "t")] none))
        "sp" []).get? j = some (StreamChunk.content c) :=
  c10_thinking_after_content.2.1
    (ModelOracle.mk (fun _ => Except.error "unused")
      (fun _ => StreamOutcome.mk [Fragment.mk (some "x") none (some "t")] none))
    "sp" [] 1 "t" (by decide)

/-! ### RAG enhancement and delegation (`ragModel.ts` lines 114-235) -/

/-- A raw document as returned by `searchSimilarDocuments`: `pageContent` may
be missing or empty (a null array element behaves exactly like one with no
`pageContent`: the `doc && doc.pageContent` filter drops both), `metadata` may
be missing (`doc.metadata || {}` defaults it). -/
structure RawDoc where
  pageContent : Option String
  metadata : Option Metadata

/-- What a non-throwing `searchSimilarDocuments` call resolves to: a document
array, or (handled defensively by the code) a non-array value. -/
inductive SearchResult
  | docs (retrieved : List RawDoc)
  | nonArray

/-- `RAGModel.enhanceMessageWithRAG`: run retrieval; on a thrown error or a
non-array result fall back to the original message; otherwise drop invalid
documents, convert the rest, and build the RAG prompt. -/
def enhanceMessageWithRAG (search : String → Except String SearchResult)
    (message : String) : String :=
  match search message with
  | .error _ => message
  | .ok .nonArray => message
  | .ok (.docs retrievedDocs) =>
    buildRAGPrompt message
      ((retrievedDocs.filter fun doc =>
          match doc.pageContent with
          | some s => s ≠ ""
          | none => false).map
        fun doc => RetrievedDoc.mk (doc.pageContent.getD "") (doc.metadata.getD []))

namespace RAGModel

/-- `RAGModel.streamChat`: if the last history element exists, has role `user`,
and `shouldUseRAG` holds for its content, replace that element's content by the
enhanced content and delegate to the parent `streamChat`; otherwise delegate
unchanged. -/
def streamChat (oracle : ModelOracle) (search : String → Except String SearchResult)
    (o : RAGSettings) (systemPrompt : String) (messages : List ChatMessage) :
    List StreamChunk :=
  match messages.getLast? with
  | some lastMessage =>
    if lastMessage.role = Role.user ∧ shouldUseRAG o lastMessage.content = true then
      OllamaModel.streamChat oracle systemPrompt
        (messages.dropLast ++
          [ChatMessage.mk Role.user (enhanceMessageWithRAG search lastMessage.content)])
    else
      OllamaModel.streamChat oracle systemPrompt messages
  | none => OllamaModel.streamChat oracle systemPrompt messages

/-- `RAGModel.createStreamingResponse`: the same conditional rewriting,
delegating to the parent `createStreamingResponse`. -/
def createStreamingResponse (oracle : ModelOracle) (toolMap : String → Option ToolImpl)
    (search : String → Except String SearchResult) (o : RAGSettings)
    (systemPrompt : String) (messages : List ChatMessage) : List SSEFrame :=
  match messages.getLast? with
  | some lastMessage =>
    if lastMessage.role = Role.user ∧ shouldUseRAG o lastMessage.content = true then
      OllamaModel.createStreamingResponse oracle toolMap systemPrompt
        (messages.dropLast ++
          [ChatMessage.mk Role.user (enhanceMessageWithRAG search lastMessage.content)])
    else
      OllamaModel.createStreamingResponse oracle toolMap systemPrompt messages
  | none => OllamaModel.createStreamingResponse oracle toolMap systemPrompt messages

end RAGModel

/-! ### C3: retrieval failure never propagates past the augmentation boundary -/

/-- C3: when retrieval throws, `enhanceMessageWithRAG` returns the message
unchanged, and both RAG entry points complete exactly as the parent would on
the unmodified original history. -/
theorem c3_retrieval_failure_swallowed (search : String → Except String SearchResult)
    (M e : String) (h : search M = Except.error e) :
    enhanceMessageWithRAG search M = M
    ∧ ∀ (oracle : ModelOracle) (toolMap : String → Option ToolImpl) (o : RAGSettings)
        (systemPrompt : String) (ms : List ChatMessage),
        RAGModel.streamChat oracle search o systemPrompt
            (ms ++ [ChatMessage.mk Role.user M])
          = OllamaModel.streamChat oracle systemPrompt (ms ++ [ChatMessage.mk Role.user M])
        ∧ RAGModel.createStreamingResponse oracle toolMap search o systemPrompt
            (ms ++ [ChatMessage.mk Role.user M])
          = OllamaModel.createStreamingResponse oracle toolMap systemPrompt
              (ms ++ [ChatMessage.mk Role.user M]) := by
  have henh : enhanceMessageWithRAG search M = M := by
    unfold enhanceMessageWithRAG
    rw [h]
  refine ⟨henh, ?_⟩
  intro oracle toolMap o systemPrompt ms
  constructor
  · unfold RAGModel.streamChat
    rw [List.getLast?_concat]
    dsimp only
    split_ifs with hc
    · rw [List.dropLast_concat, henh]
    · rfl
  · unfold RAGModel.createStreamingResponse
    rw [List.getLast?_concat]
    dsimp only
    split_ifs with hc
    · rw [List.dropLast_concat, henh]
    · rfl

/-- Witness for C3 at a search oracle that always throws. -/
theorem c3_retrieval_failure_swallowed_witness :
    enhanceMessageWithRAG (fun _ => Except.error "boom") "q" = "q" :=
  (c3_retrieval_failure_swallowed (fun _ => Except.error "boom") "q" "boom" rfl).1

/-! ### C8: the delegated history — frame condition -/

/-- C8: when the last turn exists, is a `user` turn, and `shouldUseRAG` holds,
both RAG entry points delegate with every earlier turn unchanged in value and
order and the last turn replaced by a `user` turn carrying the enhanced
content; otherwise (including the empty history) they delegate with exactly
the input history. -/
theorem c8_delegation_frame (oracle : ModelOracle) (toolMap : String → Option ToolImpl)
    (search : String → Except String SearchResult) (o : RAGSettings)
    (systemPrompt : String) :
    (∀ (pre : List ChatMessage) (last : ChatMessage),
      last.role = Role.user → shouldUseRAG o last.content = true →
        RAGModel.streamChat oracle search o systemPrompt (pre ++ [last])
          = OllamaModel.streamChat oracle systemPrompt
              (pre ++ [ChatMessage.mk Role.user (enhanceMessageWithRAG search last.content)])
        ∧ RAGModel.createStreamingResponse oracle toolMap search o systemPrompt
            (pre ++ [last])
          = OllamaModel.createStreamingResponse oracle toolMap systemPrompt
              (pre ++ [ChatMessage.mk Role.user (enhanceMessageWithRAG search last.content)]))
    ∧ (∀ (pre : List ChatMessage) (last : ChatMessage),
      last.role ≠ Role.user ∨ shouldUseRAG o last.content = false →
        RAGModel.streamChat oracle search o systemPrompt (pre ++ [last])
          = OllamaModel.streamChat oracle systemPrompt (pre ++ [last])
        ∧ RAGModel.createStreamingResponse oracle toolMap search o systemPrompt
            (pre ++ [last])
          = OllamaModel.createStreamingResponse oracle toolMap systemPrompt (pre ++ [last]))
    ∧ RAGModel.streamChat oracle search o systemPrompt []
        = OllamaModel.streamChat oracle systemPrompt []
    ∧ RAGModel.createStreamingResponse oracle toolMap search o systemPrompt []
        = OllamaModel.createStreamingResponse oracle toolMap systemPrompt [] := by
  refine ⟨?_, ?_, rfl, rfl⟩
  · intro pre last hrole hrag
    constructor
    · unfold RAGModel.streamChat
      rw [List.getLast?_concat]
      dsimp only
      rw [if_pos ⟨hrole, hrag⟩, List.dropLast_concat]
    · unfold RAGModel.createStreamingResponse
      rw [List.getLast?_concat]
      dsimp only
      rw [if_pos ⟨hrole, hrag⟩, List.dropLast_concat]
  · intro pre last hno
    have hcond : ¬(last.role = Role.user ∧ shouldUseRAG o last.content = true) := by
      rcases hno with hno | hno
      · exact fun hc => hno hc.1
      · exact fun hc => by rw [hno] at hc; exact Bool.false_ne_true hc.2
    constructor
    · unfold RAGModel.streamChat
      rw [List.getLast?_concat]
      dsimp only
      rw [if_neg hcond]
    · unfold RAGModel.createStreamingResponse
      rw [List.getLast?_concat]
      dsimp only
      rw [if_neg hcond]

/-- Witness for C8 at a concrete history whose last turn is a `user` turn with
RAG enabled and no threshold. -/
theorem c8_delegation_frame_witness :
    RAGModel.streamChat
        (ModelOracle.mk (fun _ => Except.error "unused") (fun _ => StreamOutcome.mk [] none))
        (fun _ => Except.ok SearchResult.nonArray) (RAGSettings.mk true 0) "sp"
        ([ChatMessage.mk Role.assistant "hi"] ++ [ChatMessage.mk Role.user "hello"])
      = OllamaModel.streamChat
          (ModelOracle.mk (fun _ => Except.error "unused") (fun _ => StreamOutcome.mk [] none))
          "sp"
          ([ChatMessage.mk Role.assistant "hi"] ++
            [ChatMessage.mk Role.user
              (enhanceMessageWithRAG (fun _ => Except.ok SearchResult.nonArray) "hello")]) :=
  ((c8_delegation_frame
      (ModelOracle.mk (fun _ => Except.error "unused") (fun _ => StreamOutcome.mk [] none))
      (fun _ => none) (fun _ => Except.ok SearchResult.nonArray) (RAGSettings.mk true 0)
      "sp").1
    [ChatMessage.mk Role.assistant "hi"] (ChatMessage.mk Role.user "hello")
    rfl (by decide)).1

/-! ### C9: ids generated by `addDocumentsToVectorStore`

`const ids = texts.map((_, index) => `doc-${Date.now()}-${index}`);` — the
clock is read inside the callback, once per element, so it is modelled as an
oracle from the element index to the observed timestamp.  `${n}` renders a
(non-negative integer) JS number in decimal, i.e. `Nat.repr`. -/

/-- The ids returned by `addDocumentsToVectorStore` for the given input texts,
with `now index` the `Date.now()` value observed at element `index`. -/
def addDocumentsToVectorStore_ids (now : Nat → Nat) (texts : List String) : List String :=
  texts.enum.map fun p => "doc-" ++ Nat.repr (now p.1) ++ "-" ++ Nat.repr p.1

/-- Numeric value of a decimal digit character. -/
def digitVal (c : Char) : Nat := c.toNat - '0'.toNat

/-- The decimal digits of `n`, least significant first. -/
def revDigits (n : Nat) : List Char :=
  if h : n < 10 then [Nat.digitChar n]
  else Nat.digitChar (n % 10) :: revDigits (n / 10)
decreasing_by exact Nat.div_lt_self (by omega) (by omega)

/-- Value of a least-significant-first digit list. -/
def parseRev : List Char → Nat
  | [] => 0
  | c :: rest => digitVal c + 10 * parseRev rest

lemma digitVal_digitChar {n : Nat} (h : n < 10) : digitVal (Nat.digitChar n) = n := by
  have : ∀ m < 10, digitVal (Nat.digitChar m) = m := by decide
  exact this n h

lemma parseRev_revDigits (n : Nat) : parseRev (revDigits n) = n := by
  induction n using Nat.strong_induction_on with
  | _ n ih =>
    by_cases h : n < 10
    · rw [revDigits, dif_pos h]
      simp [parseRev, digitVal_digitChar h]
    · rw [revDigits, dif_neg h]
      have hmod : n % 10 < 10 := Nat.mod_lt _ (by omega)
      have hdiv : n / 10 < n := Nat.div_lt_self (by omega) (by omega)
      simp only [parseRev, digitVal_digitChar hmod, ih _ hdiv]
      omega

lemma revDigits_injective : Function.Injective revDigits := by
  intro a b h
  have := congrArg parseRev h
  rwa [parseRev_revDigits, parseRev_revDigits] at this

lemma mem_revDigits_isDigit : ∀ n : Nat, ∀ c ∈ revDigits n, c.isDigit = true := by
  have hbase : ∀ m < 10, (Nat.digitChar m).isDigit = true := by decide
  intro n
  induction n using Nat.strong_induction_on with
  | _ n ih =>
    intro c hc
    by_cases h : n < 10
    · rw [revDigits, dif_pos h] at hc
      rw [List.mem_singleton] at hc
      subst hc
      exact hbase n h
    · rw [revDigits, dif_neg h] at hc
      rcases List.mem_cons.1 hc with hc | hc
      · subst hc
        exact hbase _ (Nat.mod_lt _ (by omega))
      · exact ih _ (Nat.div_lt_self (by omega) (by omega)) c hc

lemma toDigitsCore_reverse :
    ∀ (fuel n : Nat) (ds : List Char), n < 10 ^ fuel → 0 < fuel →
      (Nat.toDigitsCore 10 fuel n ds).reverse = ds.reverse ++ revDigits n := by
  intro fuel
  induction fuel with
  | zero => intro n ds _ h0; omega
  | succ f ih =>
    intro n ds hn _
    unfold Nat.toDigitsCore
    by_cases h0 : n / 10 = 0
    · have hn10 : n < 10 := by
        rcases (Nat.div_eq_zero_iff (by omega : 0 < 10)).1 h0 with h
        exact h
      rw [if_pos h0, List.reverse_cons, revDigits, dif_pos hn10, Nat.mod_eq_of_lt hn10]
    · have h10 : ¬ n < 10 := by
        intro hlt
        exact h0 ((Nat.div_eq_zero_iff (by omega : 0 < 10)).2 hlt)
      have hdiv : n / 10 < 10 ^ f := by
        rw [Nat.div_lt_iff_lt_mul (by omega : 0 < 10)]
        calc n < 10 ^ (f + 1) := hn
        _ = 10 ^ f * 10 := by rw [pow_succ]
      have hfpos : 0 < f := by
        rcases Nat.eq_zero_or_pos f with hf | hf
        · subst hf
          simp at hdiv
          exact absurd hdiv h0
        · exact hf
      rw [if_neg h0, ih (n / 10) _ hdiv hfpos, List.reverse_cons]
      conv_rhs => rw [revDigits]
      rw [dif_neg h10]
      simp

lemma toDigits_reverse (n : Nat) : (Nat.toDigits 10 n).reverse = revDigits n := by
  unfold Nat.toDigits
  have hlt : n < 10 ^ (n + 1) := by
    calc n < 2 ^ n := Nat.lt_two_pow n
    _ ≤ 10 ^ n := Nat.pow_le_pow_left (by omega) n
    _ ≤ 10 ^ (n + 1) := Nat.pow_le_pow_right (by omega) (by omega)
  rw [toDigitsCore_reverse (n + 1) n [] hlt (by omega)]
  rfl

lemma repr_data (n : Nat) : (Nat.repr n).data = Nat.toDigits 10 n := rfl

lemma repr_injective : Function.Injective Nat.repr := by
  intro a b h
  have hdata : Nat.toDigits 10 a = Nat.toDigits 10 b := by
    rw [← repr_data, ← repr_data, h]
  have := congrArg List.reverse hdata
  rw [toDigits_reverse, toDigits_reverse] at this
  exact revDigits_injective this

lemma dash_not_mem_repr (n : Nat) : '-' ∉ (Nat.repr n).data := by
  intro hmem
  rw [repr_data] at hmem
  rw [← List.reverse_reverse (Nat.toDigits 10 n), List.mem_reverse, toDigits_reverse] at hmem
  have := mem_revDigits_isDigit n '-' hmem
  exact absurd this (by decide)

lemma append_dash_inj :
    ∀ (l1 l2 r1 r2 : List Char), '-' ∉ l1 → '-' ∉ l2 →
      l1 ++ '-' :: r1 = l2 ++ '-' :: r2 → l1 = l2 ∧ r1 = r2 := by
  intro l1
  induction l1 with
  | nil =>
    intro l2 r1 r2 _ h2 h
    cases l2 with
    | nil => simpa using h
    | cons d l2' =>
      rw [List.nil_append, List.cons_append, List.cons.injEq] at h
      exact absurd (List.mem_cons_self d l2') (by rw [← h.1] at h2 ⊢; exact h2)
  | cons c l1' ih =>
    intro l2 r1 r2 h1 h2 h
    cases l2 with
    | nil =>
      rw [List.nil_append, List.cons_append, List.cons.injEq] at h
      exact absurd (List.mem_cons_self c l1') (by rw [h.1] at h1 ⊢; exact h1)
    | cons d l2' =>
      rw [List.cons_append, List.cons_append, List.cons.injEq] at h
      obtain ⟨hl, hr⟩ := ih l2' r1 r2
        (fun hm => h1 (List.mem_cons_of_mem _ hm))
        (fun hm => h2 (List.mem_cons_of_mem _ hm)) h.2
      exact ⟨by rw [h.1, hl], hr⟩

lemma genId_injective (now : Nat → Nat) :
    Function.Injective fun index => "doc-" ++ Nat.repr (now index) ++ "-" ++ Nat.repr index := by
  intro a b h
  simp only at h
  have hdata := congrArg (fun s : String => s.data.reverse) h
  simp only [String.data_append, List.reverse_append] at hdata
  have hre : ∀ m : Nat,
      (Nat.repr m).data.reverse ++ (("-" : String).data.reverse ++
          ((Nat.repr (now m)).data.reverse ++ ("doc-" : String).data.reverse))
        = (Nat.repr m).data.reverse ++
            ('-' :: ((Nat.repr (now m)).data.reverse ++ ['-', 'c', 'o', 'd'])) := by
    intro m
    rfl
  rw [hre a, hre b] at hdata
  have hnd : ∀ m : Nat, '-' ∉ (Nat.repr m).data.reverse := by
    intro m hm
    exact dash_not_mem_repr m (List.mem_reverse.1 hm)
  have hfst := (append_dash_inj _ _ _ _ (hnd a) (hnd b) hdata).1
  have hrev : revDigits a = revDigits b := by
    have h1 : (Nat.repr a).data.reverse = revDigits a := by rw [repr_data, toDigits_reverse]
    have h2 : (Nat.repr b).data.reverse = revDigits b := by rw [repr_data, toDigits_reverse]
    rw [← h1, ← h2, hfst]
  exact revDigits_injective hrev

/-- C9: `addDocumentsToVectorStore` generates exactly one id per input text,
each the composite `doc-<timestamp>-<index>` with the zero-based element
index, and the ids of a single call are pairwise distinct. -/
theorem c9_generated_ids (now : Nat → Nat) (texts : List String) :
    addDocumentsToVectorStore_ids now texts
        = (List.range texts.length).map
            (fun index => "doc-" ++ Nat.repr (now index) ++ "-" ++ Nat.repr index)
    ∧ (addDocumentsToVectorStore_ids now texts).length = texts.length
    ∧ (addDocumentsToVectorStore_ids now texts).Nodup := by
  have hmap : addDocumentsToVectorStore_ids now texts
      = (List.range texts.length).map
          (fun index => "doc-" ++ Nat.repr (now index) ++ "-" ++ Nat.repr index) := by
    unfold addDocumentsToVectorStore_ids
    rw [show (fun p : Nat × String => "doc-" ++ Nat.repr (now p.1) ++ "-" ++ Nat.repr p.1)
        = (fun index => "doc-" ++ Nat.repr (now index) ++ "-" ++ Nat.repr index) ∘ Prod.fst
      from rfl]
    rw [← List.map_map, List.enum_map_fst]
  refine ⟨hmap, ?_, ?_⟩
  · rw [hmap, List.length_map, List.length_range]
  · rw [hmap]
    exact (List.nodup_range _).map (genId_injective now)

end Spec2Proof
